import Mathlib

/-!
Verification of `markdown_settings.py` (Markdown Preview settings handler).

The module is shallowly embedded: Python values become the inductive `Val`,
Python dictionaries become ordered association lists (`PyDict`) with
Python-dict semantics (update-in-place for an existing key, append for a new
one), and the external collaborators — `os.path`, `sys.platform`, `str`,
`importlib`, and the host editor's settings store — are abstracted as an
environment `Env` of opaque-by-quantification functions plus a read-only map
for the store.  Exceptional Python executions (`TypeError`/`KeyError` raised
when a stored override has been clobbered with a value of the wrong type,
or when a front-matter field holds a non-path value) are outside the
embedding; each such spot is marked with a comment.
-/

namespace MarkdownSettings

/-- A Python value as it appears in this module: `None`, strings, lists,
dicts (ordered association lists keyed by strings) and opaque other values. -/
inductive Val where
  | null : Val
  | str : String → Val
  | list : List Val → Val
  | dict : List (String × Val) → Val
  | other : Nat → Val

/-- A Python dictionary with string keys: an insertion-ordered association list. -/
abbrev PyDict := List (String × Val)

/-- `d[key]` as an option: the first (and in a real dict, only) binding. -/
def dlookup : PyDict → String → Option Val
  | [], _ => Option.none
  | (k, v) :: rest, key => if k = key then some v else dlookup rest key

/-- `key in d`. -/
def dmem (d : PyDict) (key : String) : Bool := (dlookup d key).isSome

/-- `d[key] = v`: update the existing binding in place, else append. -/
def dinsert : PyDict → String → Val → PyDict
  | [], key, v => [(key, v)]
  | (k, w) :: rest, key, v =>
      if k = key then (k, v) :: rest else (k, w) :: dinsert rest key v

/-- `del d[key]`.  A Python dict holds each key at most once, so deleting the
sole occurrence is the same as filtering every occurrence out. -/
def derase (d : PyDict) (key : String) : PyDict :=
  d.filter (fun kv => kv.1 ≠ key)

/-- `dict(pairs)`: fold the pairs into a dict, later values for a key winning. -/
def dictFromPairs (l : List (String × Val)) : PyDict :=
  l.foldl (fun d kv => dinsert d kv.1 kv.2) []

/-- The external collaborators of the module, abstracted: the platform flag
read by `sys.platform.startswith('win')`, the `os.path` functions (pure string
functions plus the existence/directory oracles, the only file I/O the spec
admits), Python's `str`, and the `importlib` lookup used by `extended_decode`. -/
structure Env where
  win : Bool
  expanduser : String → String
  dirname : String → String
  basename : String → String
  joinp : String → String → String
  normpath : String → String
  fexists : String → Bool
  fisdir : String → Bool
  pyStr : Val → String
  importName : String → Val

/-- The regex `(^[A-Za-z]{1}:(?:\\|/))` of `Settings.is_abs`: an ASCII drive
letter, a colon, then a backslash or slash. -/
def winDriveMatch (p : String) : Bool :=
  match p.data with
  | c :: d :: s :: _ => c.isAlpha && d = ':' && (s = '\\' || s = '/')
  | _ => false

/-- `pth.startswith('/')`. -/
def startsSlash (p : String) : Bool :=
  match p.data with
  | c :: _ => c = '/'
  | [] => false

/-- `pth.startswith("//")`. -/
def startsSlashSlash (p : String) : Bool :=
  match p.data with
  | c :: d :: _ => c = '/' && d = '/'
  | _ => false

/-- `Settings.is_abs`: platform-dependent absolute-path test. -/
def is_abs (win : Bool) (pth : Option String) : Bool :=
  match pth with
  | Option.none => false
  | some p =>
    if win then winDriveMatch p || startsSlashSlash p
    else startsSlash p

/-- The `Settings` object: the document's file name, the wrapped host settings
store (`self._sub_settings`, read through its `get`/`has` API and modelled as a
partial map), and the in-memory override dictionary `self._overrides`. -/
structure Settings where
  file_name : Option String
  sub : String → Option Val
  overrides : PyDict

def optStrToVal : Option String → Val
  | some s => Val.str s
  | Option.none => Val.null

/-- Read a value expected to be a path (`str`) or `None`.  A value of any
other type would raise a `TypeError` inside `os.path` in Python; the embedding
maps it to `None` and never exercises that case in a claim. -/
def valToOptStr : Val → Option String
  | Val.str s => some s
  | _ => Option.none

/-- `self._overrides["builtin"]` as a dict.  `__init__` always installs a dict
there; if `set` clobbered it with a non-dict, Python would raise on the next
subscript, a case outside the embedding (it yields the empty dict here). -/
def builtinOf (ov : PyDict) : PyDict :=
  match dlookup ov "builtin" with
  | some (Val.dict d) => d
  | _ => []

/-- `self._overrides["meta"]` (or `self._overrides.get("meta", {})`) as a dict;
same caveat as `builtinOf` for a clobbered non-dict value. -/
def metaOf (ov : PyDict) : PyDict :=
  match dlookup ov "meta" with
  | some (Val.dict d) => d
  | _ => []

/-- `extended_decode`: replace a dict carrying the magic `!!python/name` key by
the imported function it names.  A non-string value under the magic key would
raise (`.split` on a non-str) in Python; unexercised here. -/
def extended_decode (imp : String → Val) (d : PyDict) : Val :=
  match dlookup d "!!python/name" with
  | some (Val.str s) => imp s
  | _ => Val.dict d

mutual
/-- The `json.loads(json.dumps(x), object_hook=extended_decode)` round trip:
structurally the identity, except that every dict node is passed through
`extended_decode` bottom-up.  (Non-JSON-encodable values would make
`json.dumps` raise; unexercised.) -/
def jsonHook (imp : String → Val) : Val → Val
  | Val.dict d => extended_decode imp (jsonHookD imp d)
  | Val.list l => Val.list (jsonHookL imp l)
  | v => v

def jsonHookD (imp : String → Val) : List (String × Val) → List (String × Val)
  | [] => []
  | (k, v) :: rest => (k, jsonHook imp v) :: jsonHookD imp rest

def jsonHookL (imp : String → Val) : List Val → List Val
  | [] => []
  | v :: rest => jsonHook imp v :: jsonHookL imp rest
end

/-- `Settings.parse_md_ext`. -/
def parse_md_ext (env : Env) (s : Settings) : Val :=
  jsonHook env.importName ((s.sub "markdown_extensions").getD (Val.dict []))

/-- `Settings.get`: the override dictionary first, then the
`markdown_extensions` special case, then the host store with the default. -/
def Settings.get (env : Env) (s : Settings) (key : String) (default : Val) : Val :=
  match dlookup s.overrides key with
  | some v => v
  | Option.none =>
    if key = "markdown_extensions" then parse_md_ext env s
    else (s.sub key).getD default

/-- `Settings.set`: write into the override dictionary. -/
def Settings.set (s : Settings) (key : String) (value : Val) : Settings :=
  { s with overrides := dinsert s.overrides key value }

/-- `Settings.has`: overrides first, then the host store. -/
def Settings.has (s : Settings) (key : String) : Bool :=
  dmem s.overrides key || (s.sub key).isSome

/-- The `for base in (current_dir, basepath)` loop of `resolve_meta_path`:
skip `None` bases, return the first join that exists. -/
def tryBases (env : Env) (t : String) : List (Option String) → Option String
  | [] => Option.none
  | Option.none :: rest => tryBases env t rest
  | some base :: rest =>
      let temp := env.joinp base t
      if env.fexists temp then some temp else tryBases env t rest

/-- `Settings.resolve_meta_path`. -/
def resolve_meta_path (env : Env) (s : Settings) (target : Option String) : Option String :=
  let basepath := Option.bind (dlookup (builtinOf s.overrides) "basepath") valToOptStr
  let current_dir := Option.map env.dirname s.file_name
  match target with
  | Option.none => Option.none
  | some t =>
    let t := env.expanduser t
    if is_abs env.win (some t) then
      if env.fexists t then some t else Option.none
    else
      match tryBases env t [current_dir, basepath] with
      | some temp => some temp
      | Option.none => some t

/-- The condition `basepath is not None and os.path.exists(basepath) and
self.is_abs(basepath) and os.path.isdir(basepath)` on the expanded path. -/
def validBasePath (env : Env) (bp : Option String) : Bool :=
  match bp with
  | some b => env.fexists b && is_abs env.win (some b) && env.fisdir b
  | Option.none => false

/-- `Settings.get_base_path`. -/
def get_base_path (env : Env) (s : Settings) (basepath : Option String) : Option String :=
  let bp := Option.map env.expanduser basepath
  if validBasePath env bp then bp
  else
    match s.file_name with
    | some fn => if env.fexists fn then some (env.dirname fn) else Option.none
    | Option.none => Option.none

/-- `Settings.__init__`: wrap the host store and install the initial override
dictionary, with the builtin basepath seeded from `get_base_path(None)`. -/
def Settings.init (env : Env) (sub : String → Option Val) (file_name : Option String) :
    Settings :=
  let s0 : Settings := { file_name := file_name, sub := sub, overrides := [] }
  { s0 with overrides :=
      [("builtin", Val.dict [("references", Val.list []),
                             ("basepath", optStrToVal (get_base_path env s0 Option.none))]),
       ("meta", Val.dict [])] }

/-- `Settings.add_meta`: `dict(list(meta.items()) + list(existing.items()))`,
so for a key in both dicts the existing (later-listed) value wins. -/
def add_meta (s : Settings) (meta : PyDict) : Settings :=
  let m := Val.dict (dictFromPairs (meta ++ metaOf s.overrides))
  { s with overrides := dinsert s.overrides "meta" m }

def BUILTIN_KEYS : List String := ["basepath", "references", "destination"]

/-- The `settings` branch of the front-matter loop: copy every sub-entry into
the top level of the override dictionary. -/
def applySettingsSub (ov : PyDict) (d : PyDict) : PyDict :=
  d.foldl (fun acc kv => dinsert acc kv.1 kv.2) ov

/-- The value conversion of the meta branch: a list becomes the list of
`str(v)`, anything else becomes `str(value)`. -/
def metaConv (env : Env) : Val → Val
  | Val.list l => Val.list (l.map (fun v => Val.str (env.pyStr v)))
  | v => Val.str (env.pyStr v)

/-- The meta (default) branch: `self._overrides["meta"][str(key)] = value`.
(A missing or clobbered `"meta"` entry would raise in Python; here it reads
as the empty dict.) -/
def applyMetaItem (env : Env) (s : Settings) (key : String) (value : Val) : Settings :=
  let m := Val.dict (dinsert (metaOf s.overrides) key (metaConv env value))
  { s with overrides := dinsert s.overrides "meta" m }

/-- The inner loop of the `references` branch: resolve each reference, keep
the normalized path when it resolved and is not a directory. -/
def refsLoop (env : Env) (s : Settings) : List Val → List String
  | [] => []
  | ref :: rest =>
    match resolve_meta_path env s (valToOptStr ref) with
    | some fn =>
        if env.fisdir fn then refsLoop env s rest
        else env.normpath fn :: refsLoop env s rest
    | Option.none => refsLoop env s rest

/-- The `references` branch: wrap a non-list value, resolve, filter, store. -/
def applyRefs (env : Env) (s : Settings) (value : Val) : Settings :=
  let vlist := match value with | Val.list l => l | v => [v]
  let b := Val.dict (dinsert (builtinOf s.overrides) "references"
    (Val.list ((refsLoop env s vlist).map Val.str)))
  { s with overrides := dinsert s.overrides "builtin" b }

/-- The `destination` branch.  A non-`None`, non-string destination would
raise inside `os.path.dirname` in Python; unexercised here (no-op). -/
def applyDest (env : Env) (s : Settings) (value : Val) : Settings :=
  match value with
  | Val.str fn =>
    let dir := resolve_meta_path env s (some (env.dirname fn))
    let fn2 := match dir with
      | some d => env.joinp d (env.basename fn)
      | Option.none => fn
    let b := Val.dict (dinsert (builtinOf s.overrides) "destination" (Val.str fn2))
    if env.fexists fn2 && env.fisdir fn2 then s
    else { s with overrides := dinsert s.overrides "builtin" b }
  | _ => s

/-- One iteration of the `for key, value in frontmatter.items()` loop. -/
def applyItem (env : Env) (s : Settings) (kv : String × Val) : Settings :=
  if kv.1 = "settings" then
    match kv.2 with
    | Val.dict d => { s with overrides := applySettingsSub s.overrides d }
    | _ => applyMetaItem env s kv.1 kv.2
  else if BUILTIN_KEYS.contains kv.1 then
    if kv.1 = "references" then applyRefs env s kv.2
    else if kv.1 = "destination" then applyDest env s kv.2
    else s
  else applyMetaItem env s kv.1 kv.2

/-- `Settings.apply_frontmatter`.  Returns the new settings together with the
front-matter dict as the caller observes it afterwards (the `basepath` entry
deleted in place). -/
def apply_frontmatter (env : Env) (s : Settings) (fm : PyDict) : Settings × PyDict :=
  let b := Val.dict (dinsert (builtinOf s.overrides) "basepath"
    (optStrToVal (get_base_path env s
      (valToOptStr ((dlookup fm "basepath").getD Val.null)))))
  let s1 :=
    if dmem fm "basepath" then { s with overrides := dinsert s.overrides "builtin" b }
    else s
  let fm2 := derase fm "basepath"
  (fm2.foldl (applyItem env) s1, fm2)

/-- A mutating operation of `Settings`, for the frame claim. -/
inductive Op where
  | setOp : String → Val → Op
  | addMetaOp : PyDict → Op
  | applyFMOp : PyDict → Op

def runOp (env : Env) (s : Settings) : Op → Settings
  | Op.setOp k v => Settings.set s k v
  | Op.addMetaOp m => add_meta s m
  | Op.applyFMOp fm => (apply_frontmatter env s fm).1

def runOps (env : Env) (s : Settings) : List Op → Settings
  | [] => s
  | op :: rest => runOps env (runOp env s op) rest

/-! ### Dictionary lemmas -/

@[simp] theorem dlookup_nil (k : String) : dlookup [] k = Option.none := rfl

@[simp] theorem dlookup_cons (kv : String × Val) (d : PyDict) (k : String) :
    dlookup (kv :: d) k = if kv.1 = k then some kv.2 else dlookup d k := rfl

@[simp] theorem dlookup_dinsert_self (d : PyDict) (k : String) (v : Val) :
    dlookup (dinsert d k v) k = some v := by
  induction d with
  | nil => simp [dinsert, dlookup]
  | cons kv rest ih =>
    by_cases h : kv.1 = k
    · simp [dinsert, dlookup, h]
    · simp [dinsert, dlookup, h, ih]

theorem dlookup_dinsert_ne (d : PyDict) (k k2 : String) (v : Val) (h : k2 ≠ k) :
    dlookup (dinsert d k v) k2 = dlookup d k2 := by
  induction d with
  | nil => simp [dinsert, dlookup, Ne.symm h]
  | cons kv rest ih =>
    by_cases hk : kv.1 = k
    · subst hk
      simp [dinsert, dlookup, Ne.symm h]
    · by_cases h2 : kv.1 = k2 <;> simp [dinsert, dlookup, hk, h2, h, ih]

theorem derase_cons (kv : String × Val) (d : PyDict) (k : String) :
    derase (kv :: d) k = if kv.1 = k then derase d k else kv :: derase d k := by
  by_cases h : kv.1 = k <;> simp [derase, List.filter_cons, h]

@[simp] theorem dlookup_derase_self (d : PyDict) (k : String) :
    dlookup (derase d k) k = Option.none := by
  induction d with
  | nil => rfl
  | cons kv rest ih =>
    rw [derase_cons]
    by_cases h : kv.1 = k
    · rw [if_pos h]
      exact ih
    · rw [if_neg h]
      simp [dlookup, h, ih]

theorem dlookup_derase_ne (d : PyDict) (k k2 : String) (h : k2 ≠ k) :
    dlookup (derase d k) k2 = dlookup d k2 := by
  induction d with
  | nil => rfl
  | cons kv rest ih =>
    rw [derase_cons]
    by_cases hk : kv.1 = k
    · rw [if_pos hk]
      have hne : ¬ kv.1 = k2 := by
        rw [hk]
        exact Ne.symm h
      rw [ih]
      simp [dlookup, hne]
    · rw [if_neg hk]
      by_cases h2 : kv.1 = k2 <;> simp [dlookup, h2, ih]

theorem dlookup_append (a b : PyDict) (k : String) :
    dlookup (a ++ b) k = (dlookup a k <|> dlookup b k) := by
  induction a with
  | nil => simp [dlookup]
  | cons kv rest ih =>
    by_cases h : kv.1 = k
    · simp [dlookup, h]
    · simp [dlookup, h, ih]

theorem dlookup_eq_none_of_not_mem_keys (d : PyDict) (k : String)
    (h : k ∉ d.map Prod.fst) : dlookup d k = Option.none := by
  induction d with
  | nil => rfl
  | cons kv rest ih =>
    simp only [List.map_cons, List.mem_cons] at h
    push_neg at h
    simp [dlookup, Ne.symm h.1, ih h.2]

theorem dlookup_isSome_of_mem (d : PyDict) (kv : String × Val)
    (h : kv ∈ d) : (dlookup d kv.1).isSome = true := by
  induction d with
  | nil => simp at h
  | cons kw rest ih =>
    rcases List.mem_cons.mp h with h1 | h1
    · subst h1
      simp [dlookup]
    · by_cases hk : kw.1 = kv.1
      · simp [dlookup, hk]
      · simp [dlookup, hk, ih h1]

theorem dlookup_foldl_dinsert (l : List (String × Val)) (acc : PyDict) (k : String) :
    dlookup (l.foldl (fun d kv => dinsert d kv.1 kv.2) acc) k =
      (dlookup l.reverse k <|> dlookup acc k) := by
  induction l generalizing acc with
  | nil => simp
  | cons kv rest ih =>
    rw [List.foldl_cons, ih, List.reverse_cons, dlookup_append]
    cases hx : dlookup rest.reverse k with
    | some v => simp
    | none =>
      by_cases h : kv.1 = k
      · subst h
        simp [dlookup]
      · simp [dlookup, h, dlookup_dinsert_ne _ _ _ _ (fun hh => h hh.symm)]

theorem dlookup_dictFromPairs (l : List (String × Val)) (k : String) :
    dlookup (dictFromPairs l) k = dlookup l.reverse k := by
  rw [dictFromPairs, dlookup_foldl_dinsert]
  cases dlookup l.reverse k <;> simp

theorem dlookup_reverse_of_nodup (d : PyDict) (k : String)
    (h : (d.map Prod.fst).Nodup) : dlookup d.reverse k = dlookup d k := by
  induction d with
  | nil => rfl
  | cons kv rest ih =>
    simp only [List.map_cons, List.nodup_cons] at h
    rw [List.reverse_cons, dlookup_append, ih h.2]
    by_cases hk : kv.1 = k
    · subst hk
      rw [dlookup_eq_none_of_not_mem_keys rest kv.1 h.1]
      simp [dlookup]
    · cases hx : dlookup rest k <;> simp [dlookup, hk, hx]

/-! ### Frame lemmas: every mutating operation leaves the wrapped store and
the file name untouched, and the front-matter loop touches only the
`"builtin"` and `"meta"` top-level entries when no `settings` table occurs. -/

theorem applyDest_frame (env : Env) (s : Settings) (v : Val) :
    (applyDest env s v).sub = s.sub ∧ (applyDest env s v).file_name = s.file_name := by
  cases v with
  | str fn =>
    simp only [applyDest]
    split <;> exact ⟨rfl, rfl⟩
  | null => exact ⟨rfl, rfl⟩
  | list l => exact ⟨rfl, rfl⟩
  | dict d => exact ⟨rfl, rfl⟩
  | other n => exact ⟨rfl, rfl⟩

theorem applyItem_frame (env : Env) (s : Settings) (kv : String × Val) :
    (applyItem env s kv).sub = s.sub ∧ (applyItem env s kv).file_name = s.file_name := by
  unfold applyItem
  split
  · split
    · exact ⟨rfl, rfl⟩
    · exact ⟨rfl, rfl⟩
  · split
    · split
      · exact ⟨rfl, rfl⟩
      · split
        · exact applyDest_frame env s kv.2
        · exact ⟨rfl, rfl⟩
    · exact ⟨rfl, rfl⟩

theorem foldl_applyItem_frame (env : Env) (l : List (String × Val)) (s : Settings) :
    (l.foldl (applyItem env) s).sub = s.sub ∧
    (l.foldl (applyItem env) s).file_name = s.file_name := by
  induction l generalizing s with
  | nil => exact ⟨rfl, rfl⟩
  | cons kv rest ih =>
    rw [List.foldl_cons]
    have h1 := ih (applyItem env s kv)
    have h2 := applyItem_frame env s kv
    exact ⟨h1.1.trans h2.1, h1.2.trans h2.2⟩

theorem apply_frontmatter_frame (env : Env) (s : Settings) (fm : PyDict) :
    (apply_frontmatter env s fm).1.sub = s.sub ∧
    (apply_frontmatter env s fm).1.file_name = s.file_name := by
  unfold apply_frontmatter
  split
  · exact foldl_applyItem_frame env _ _
  · exact foldl_applyItem_frame env _ _

theorem applyItem_top_ne (env : Env) (s : Settings) (kv : String × Val) (k : String)
    (hset : kv.1 ≠ "settings") (hb : k ≠ "builtin") (hm : k ≠ "meta") :
    dlookup (applyItem env s kv).overrides k = dlookup s.overrides k := by
  unfold applyItem
  rw [if_neg hset]
  split
  · split
    · show dlookup (dinsert s.overrides "builtin" _) k = _
      exact dlookup_dinsert_ne _ _ _ _ hb
    · split
      · cases hv : kv.2 with
        | str fn =>
          simp only [applyDest]
          split
          · rfl
          · exact dlookup_dinsert_ne _ _ _ _ hb
        | null => rfl
        | list l => rfl
        | dict d => rfl
        | other n => rfl
      · rfl
  · show dlookup (dinsert s.overrides "meta" _) k = _
    exact dlookup_dinsert_ne _ _ _ _ hm

theorem builtinOf_dinsert_builtin (ov : PyDict) (d : PyDict) :
    builtinOf (dinsert ov "builtin" (Val.dict d)) = d := by
  unfold builtinOf
  rw [dlookup_dinsert_self]

theorem metaOf_dinsert_meta (ov : PyDict) (d : PyDict) :
    metaOf (dinsert ov "meta" (Val.dict d)) = d := by
  unfold metaOf
  rw [dlookup_dinsert_self]

theorem builtinOf_dinsert_meta (ov : PyDict) (m : Val) :
    builtinOf (dinsert ov "meta" m) = builtinOf ov := by
  unfold builtinOf
  rw [dlookup_dinsert_ne]
  intro h
  exact absurd h (by decide)

theorem applyItem_builtin_basepath (env : Env) (s : Settings) (kv : String × Val)
    (hset : kv.1 ≠ "settings") :
    dlookup (builtinOf (applyItem env s kv).overrides) "basepath" =
      dlookup (builtinOf s.overrides) "basepath" := by
  unfold applyItem
  rw [if_neg hset]
  split
  · split
    · show dlookup (builtinOf (dinsert s.overrides "builtin"
        (Val.dict (dinsert (builtinOf s.overrides) "references" _)))) "basepath" = _
      unfold builtinOf
      rw [dlookup_dinsert_self]
      rw [dlookup_dinsert_ne _ _ _ _ (by decide)]
    · split
      · cases hv : kv.2 with
        | str fn =>
          simp only [applyDest]
          split
          · rfl
          · show dlookup (builtinOf (dinsert s.overrides "builtin"
              (Val.dict (dinsert (builtinOf s.overrides) "destination" _)))) "basepath" = _
            unfold builtinOf
            rw [dlookup_dinsert_self]
            rw [dlookup_dinsert_ne _ _ _ _ (by decide)]
        | null => rfl
        | list l => rfl
        | dict d => rfl
        | other n => rfl
      · rfl
  · show dlookup (builtinOf (dinsert s.overrides "meta" _)) "basepath" = _
    rw [builtinOf_dinsert_meta]

theorem foldl_applyItem_top_ne (env : Env) (l : List (String × Val)) (s : Settings)
    (k : String) (hl : ∀ kv ∈ l, kv.1 ≠ "settings")
    (hb : k ≠ "builtin") (hm : k ≠ "meta") :
    dlookup (l.foldl (applyItem env) s).overrides k = dlookup s.overrides k := by
  induction l generalizing s with
  | nil => rfl
  | cons kv rest ih =>
    rw [List.foldl_cons]
    rw [ih (applyItem env s kv) (fun x hx => hl x (List.mem_cons_of_mem kv hx))]
    exact applyItem_top_ne env s kv k (hl kv (List.mem_cons_self kv rest)) hb hm

theorem foldl_applyItem_builtin_basepath (env : Env) (l : List (String × Val))
    (s : Settings) (hl : ∀ kv ∈ l, kv.1 ≠ "settings") :
    dlookup (builtinOf (l.foldl (applyItem env) s).overrides) "basepath" =
      dlookup (builtinOf s.overrides) "basepath" := by
  induction l generalizing s with
  | nil => rfl
  | cons kv rest ih =>
    rw [List.foldl_cons]
    rw [ih (applyItem env s kv) (fun x hx => hl x (List.mem_cons_of_mem kv hx))]
    exact applyItem_builtin_basepath env s kv (hl kv (List.mem_cons_self kv rest))

/-! ### Concrete fixtures for counterexamples and witnesses -/

/-- An empty host store. -/
def subEmpty : String → Option Val := fun _ => Option.none

/-- A host store carrying an application-level default for `basepath`. -/
def subBase : String → Option Val :=
  fun k => if k = "basepath" then some (Val.str "appdefault") else Option.none

/-- A concrete environment: Unix-flavoured platform on which exactly `/dir`
(a directory) and `/file` (a plain file) exist. -/
def envT : Env :=
  { win := false,
    expanduser := fun p => p,
    dirname := fun _ => "/docs",
    basename := fun p => p,
    joinp := fun a b => a ++ "/" ++ b,
    normpath := fun p => p,
    fexists := fun p => if p = "/dir" then true else if p = "/file" then true else false,
    fisdir := fun p => if p = "/dir" then true else false,
    pyStr := fun _ => "S",
    importName := fun _ => Val.null }

/-- A freshly initialized `Settings` over the empty store, for a stream with
no file name. -/
def sT : Settings := Settings.init envT subEmpty Option.none

/-- A freshly initialized `Settings` over the store with a `basepath` default. -/
def sB : Settings := Settings.init envT subBase Option.none

/-- A `Settings` whose meta overrides already bind `"a"`. -/
def sM : Settings :=
  { file_name := Option.none, sub := subEmpty,
    overrides := [("meta", Val.dict [("a", Val.str "old")])] }

/-! ### Claims -/

/-- C1, counterexample: the claim says `get(k, d)` falls through to the host
store (value, or `d`) for every non-overridden key, but for
`k = "markdown_extensions"` the code returns the parsed-extensions value —
with the empty store and `d = "fallback"` it returns `{}`, not `d`. -/
theorem C1_counterexample :
    dlookup sT.overrides "markdown_extensions" = Option.none ∧
    subEmpty "markdown_extensions" = Option.none ∧
    Settings.get envT sT "markdown_extensions" (Val.str "fallback") = Val.dict [] ∧
    Val.dict [] ≠ Val.str "fallback" :=
  ⟨rfl, rfl, rfl, fun h => nomatch h⟩

/-- C1 (amended): `get(k, d)` returns the override value when `k` is a key of
the override dictionary; otherwise, for `k ≠ 'markdown_extensions'`, it
returns the host store's value, or `d` when the store has no entry; for
`k = 'markdown_extensions'` without an override it returns the parsed
markdown extensions instead. -/
theorem C1_get_amended (env : Env) (s : Settings) (k : String) (d : Val) :
    (∀ v, dlookup s.overrides k = some v → Settings.get env s k d = v) ∧
    (dlookup s.overrides k = Option.none → k ≠ "markdown_extensions" →
      Settings.get env s k d = (s.sub k).getD d) ∧
    (dlookup s.overrides k = Option.none → k = "markdown_extensions" →
      Settings.get env s k d = parse_md_ext env s) := by
  refine ⟨?_, ?_, ?_⟩
  · intro v hv
    simp [Settings.get, hv]
  · intro h hk
    simp [Settings.get, h, hk]
  · intro h hk
    subst hk
    simp [Settings.get, h]

/-- C1 witness: the amended theorem applied at the key `"x"` over the empty
store returns the supplied default. -/
theorem C1_get_amended_witness :
    Settings.get envT sT "x" (Val.str "d") = (sT.sub "x").getD (Val.str "d") :=
  (C1_get_amended envT sT "x" (Val.str "d")).2.1 rfl (by decide)

/-- C2, counterexample: the claim says that after `apply_frontmatter` with a
`basepath` field, `get("basepath", d)` returns the front-matter-derived value.
In fact the resolved value (`/dir`) is stored inside the `"builtin"` override
dict, and `get("basepath", None)` still returns the host store's
application-level default (`appdefault`). -/
theorem C2_counterexample :
    dlookup (builtinOf (apply_frontmatter envT sB
        [("basepath", Val.str "/dir")]).1.overrides) "basepath" =
      some (Val.str "/dir") ∧
    Settings.get envT (apply_frontmatter envT sB
        [("basepath", Val.str "/dir")]).1 "basepath" Val.null =
      Val.str "appdefault" ∧
    Val.str "appdefault" ≠ Val.str "/dir" :=
  ⟨rfl, rfl, fun h => absurd (Val.str.inj h) (by decide)⟩

/-- C2 (amended): after `apply_frontmatter` with a front-matter dict
containing a builtin field (with no `settings` table in the front matter and
no pre-existing top-level override for that field's key), `get` of the
field's key is unaffected and still falls through to the host store's
application-level default; the front-matter-derived value is instead stored
inside the `"builtin"` override dictionary (shown here for `basepath`, whose
stored value is the `get_base_path` resolution of the front-matter value). -/
theorem C2_frontmatter_amended (env : Env) (s : Settings) (fm : PyDict) (d : Val)
    (hns : dlookup fm "settings" = Option.none) :
    (∀ field, field ∈ BUILTIN_KEYS → dlookup s.overrides field = Option.none →
      Settings.get env (apply_frontmatter env s fm).1 field d =
        (s.sub field).getD d) ∧
    (∀ v, dlookup fm "basepath" = some v →
      dlookup (builtinOf (apply_frontmatter env s fm).1.overrides) "basepath" =
        some (optStrToVal (get_base_path env s (valToOptStr v)))) := by
  have hset : ∀ kv ∈ derase fm "basepath", kv.1 ≠ "settings" := by
    intro kv hkv heq
    have hm : kv ∈ fm := List.mem_of_mem_filter hkv
    have h2 := dlookup_isSome_of_mem fm kv hm
    rw [heq, hns] at h2
    simp at h2
  have hframe := apply_frontmatter_frame env s fm
  refine ⟨?_, ?_⟩
  · intro field hf hno
    have hf3 : field = "basepath" ∨ field = "references" ∨ field = "destination" := by
      simpa [BUILTIN_KEYS] using hf
    have main : ∀ fld, fld ≠ "builtin" → fld ≠ "meta" → fld ≠ "markdown_extensions" →
        dlookup s.overrides fld = Option.none →
        Settings.get env (apply_frontmatter env s fm).1 fld d =
          (s.sub fld).getD d := by
      intro fld hb hm2 hx hno2
      have htop : dlookup (apply_frontmatter env s fm).1.overrides fld =
          Option.none := by
        cases hdm : dmem fm "basepath" with
        | true =>
          have h1 : (apply_frontmatter env s fm).1 =
              (derase fm "basepath").foldl (applyItem env)
                { s with overrides := (dinsert s.overrides "builtin"
                  (Val.dict (dinsert (builtinOf s.overrides) "basepath"
                    (optStrToVal (get_base_path env s
                      (valToOptStr ((dlookup fm "basepath").getD Val.null))))))) } := by
            unfold apply_frontmatter
            simp [hdm]
          rw [h1, foldl_applyItem_top_ne env _ _ fld hset hb hm2]
          show dlookup (dinsert s.overrides "builtin" _) fld = _
          rw [dlookup_dinsert_ne _ _ _ _ hb, hno2]
        | false =>
          have h1 : (apply_frontmatter env s fm).1 =
              (derase fm "basepath").foldl (applyItem env) s := by
            unfold apply_frontmatter
            simp [hdm]
          rw [h1, foldl_applyItem_top_ne env _ _ fld hset hb hm2, hno2]
      simp [Settings.get, htop, hx, hframe.1]
    rcases hf3 with rfl | rfl | rfl
    · exact main _ (by decide) (by decide) (by decide) hno
    · exact main _ (by decide) (by decide) (by decide) hno
    · exact main _ (by decide) (by decide) (by decide) hno
  · intro v hv
    have hmem : dmem fm "basepath" = true := by
      rw [dmem, hv]
      rfl
    have h1 : (apply_frontmatter env s fm).1 =
        (derase fm "basepath").foldl (applyItem env)
          { s with overrides := (dinsert s.overrides "builtin"
            (Val.dict (dinsert (builtinOf s.overrides) "basepath"
              (optStrToVal (get_base_path env s (valToOptStr v)))))) } := by
      unfold apply_frontmatter
      rw [hv]
      simp [hmem]
    rw [h1, foldl_applyItem_builtin_basepath env _ _ hset]
    show dlookup (builtinOf (dinsert s.overrides "builtin" _)) "basepath" = _
    rw [builtinOf_dinsert_builtin, dlookup_dinsert_self]

/-- C2 witness: the amended theorem applied to a concrete front matter whose
`basepath` resolves to the existing directory `/dir`, over the store holding
an `appdefault` value for `basepath`. -/
theorem C2_frontmatter_amended_witness :
    Settings.get envT (apply_frontmatter envT sB
        [("basepath", Val.str "/dir")]).1 "basepath" Val.null =
      (sB.sub "basepath").getD Val.null ∧
    dlookup (builtinOf (apply_frontmatter envT sB
        [("basepath", Val.str "/dir")]).1.overrides) "basepath" =
      some (optStrToVal (get_base_path envT sB (valToOptStr (Val.str "/dir")))) :=
  ⟨(C2_frontmatter_amended envT sB [("basepath", Val.str "/dir")] Val.null rfl).1
      "basepath" (by decide) rfl,
   (C2_frontmatter_amended envT sB [("basepath", Val.str "/dir")] Val.null rfl).2
      (Val.str "/dir") rfl⟩

/-- C3: after `set(k, v)`, `has(k)` is true and `get(k, d)` returns `v` for
every default `d` — the round trip goes through the override layer. -/
theorem C3_set_get_has (env : Env) (s : Settings) (k : String) (v d : Val) :
    Settings.has (Settings.set s k v) k = true ∧
    Settings.get env (Settings.set s k v) k d = v := by
  constructor
  · simp [Settings.has, Settings.set, dmem]
  · simp [Settings.get, Settings.set]

/-- C4: `resolve_meta_path` expands the user home prefix; an absolute
expanded target is returned unchanged when it exists and `None` otherwise; a
relative expanded target is joined against the document's directory first and
the stored builtin basepath second, the first existing join winning, and is
returned unchanged itself when neither join exists; a `None` target yields
`None`. -/
theorem C4_resolve_meta_path (env : Env) (s : Settings) (t : String) :
    resolve_meta_path env s Option.none = Option.none ∧
    (is_abs env.win (some (env.expanduser t)) = true →
      env.fexists (env.expanduser t) = true →
      resolve_meta_path env s (some t) = some (env.expanduser t)) ∧
    (is_abs env.win (some (env.expanduser t)) = true →
      env.fexists (env.expanduser t) = false →
      resolve_meta_path env s (some t) = Option.none) ∧
    (is_abs env.win (some (env.expanduser t)) = false →
      ∀ c, Option.map env.dirname s.file_name = some c →
        env.fexists (env.joinp c (env.expanduser t)) = true →
        resolve_meta_path env s (some t) = some (env.joinp c (env.expanduser t))) ∧
    (is_abs env.win (some (env.expanduser t)) = false →
      (∀ c, Option.map env.dirname s.file_name = some c →
        env.fexists (env.joinp c (env.expanduser t)) = false) →
      ∀ b, Option.bind (dlookup (builtinOf s.overrides) "basepath") valToOptStr = some b →
        env.fexists (env.joinp b (env.expanduser t)) = true →
        resolve_meta_path env s (some t) = some (env.joinp b (env.expanduser t))) ∧
    (is_abs env.win (some (env.expanduser t)) = false →
      (∀ c, Option.map env.dirname s.file_name = some c →
        env.fexists (env.joinp c (env.expanduser t)) = false) →
      (∀ b, Option.bind (dlookup (builtinOf s.overrides) "basepath") valToOptStr = some b →
        env.fexists (env.joinp b (env.expanduser t)) = false) →
      resolve_meta_path env s (some t) = some (env.expanduser t)) := by
  refine ⟨rfl, ?_, ?_, ?_, ?_, ?_⟩
  · intro habs hex
    simp [resolve_meta_path, habs, hex]
  · intro habs hex
    simp [resolve_meta_path, habs, hex]
  · intro habs c hc hex
    simp [resolve_meta_path, habs, hc, tryBases, hex]
  · intro habs hcd b hb hexb
    cases hc : Option.map env.dirname s.file_name with
    | none => simp [resolve_meta_path, habs, hc, hb, tryBases, hexb]
    | some c =>
      have hcf := hcd c hc
      simp [resolve_meta_path, habs, hc, hcf, hb, tryBases, hexb]
  · intro habs hcd hbp
    cases hc : Option.map env.dirname s.file_name with
    | none =>
      cases hb : Option.bind (dlookup (builtinOf s.overrides) "basepath") valToOptStr with
      | none => simp [resolve_meta_path, habs, hc, hb, tryBases]
      | some b =>
        have hbf := hbp b hb
        simp [resolve_meta_path, habs, hc, hb, tryBases, hbf]
    | some c =>
      have hcf := hcd c hc
      cases hb : Option.bind (dlookup (builtinOf s.overrides) "basepath") valToOptStr with
      | none => simp [resolve_meta_path, habs, hc, hcf, hb, tryBases]
      | some b =>
        have hbf := hbp b hb
        simp [resolve_meta_path, habs, hc, hcf, hb, tryBases, hbf]

/-- C4 witness: the absolute existing target `/dir` is returned unchanged. -/
theorem C4_resolve_meta_path_witness :
    resolve_meta_path envT sT (some "/dir") = some (envT.expanduser "/dir") :=
  (C4_resolve_meta_path envT sT "/dir").2.1 rfl rfl

/-- C5: `get_base_path` returns the user-expanded input when that expansion
exists, is absolute and is a directory; otherwise it returns the directory of
the document's file name when that file name is non-`None` and exists; and
`None` otherwise (also for a `None` input, which always takes the fallback). -/
theorem C5_get_base_path (env : Env) (s : Settings) (b : String) :
    ((env.fexists (env.expanduser b) && is_abs env.win (some (env.expanduser b)) &&
        env.fisdir (env.expanduser b)) = true →
      get_base_path env s (some b) = some (env.expanduser b)) ∧
    ((env.fexists (env.expanduser b) && is_abs env.win (some (env.expanduser b)) &&
        env.fisdir (env.expanduser b)) = false →
      (∀ fn, s.file_name = some fn → env.fexists fn = true →
        get_base_path env s (some b) = some (env.dirname fn)) ∧
      (s.file_name = Option.none → get_base_path env s (some b) = Option.none) ∧
      (∀ fn, s.file_name = some fn → env.fexists fn = false →
        get_base_path env s (some b) = Option.none)) ∧
    (∀ fn, s.file_name = some fn → env.fexists fn = true →
      get_base_path env s Option.none = some (env.dirname fn)) ∧
    (s.file_name = Option.none → get_base_path env s Option.none = Option.none) ∧
    (∀ fn, s.file_name = some fn → env.fexists fn = false →
      get_base_path env s Option.none = Option.none) := by
  refine ⟨?_, ?_, ?_, ?_, ?_⟩
  · intro hcond
    simp [get_base_path, validBasePath, hcond]
  · intro hcond
    refine ⟨?_, ?_, ?_⟩
    · intro fn hfn hex
      simp [get_base_path, validBasePath, hcond, hfn, hex]
    · intro hfn
      simp [get_base_path, validBasePath, hcond, hfn]
    · intro fn hfn hex
      simp [get_base_path, validBasePath, hcond, hfn, hex]
  · intro fn hfn hex
    simp [get_base_path, validBasePath, hfn, hex]
  · intro hfn
    simp [get_base_path, validBasePath, hfn]
  · intro fn hfn hex
    simp [get_base_path, validBasePath, hfn, hex]

/-- C5 witness: the absolute existing directory `/dir` is returned
user-expanded. -/
theorem C5_get_base_path_witness :
    get_base_path envT sT (some "/dir") = some (envT.expanduser "/dir") :=
  (C5_get_base_path envT sT "/dir").1 rfl

theorem refsLoop_eq_filterMap (env : Env) (s : Settings) (l : List Val) :
    refsLoop env s l = l.filterMap (fun ref =>
      match resolve_meta_path env s (valToOptStr ref) with
      | some fn => if env.fisdir fn then Option.none else some (env.normpath fn)
      | Option.none => Option.none) := by
  induction l with
  | nil => rfl
  | cons r rest ih =>
    simp only [refsLoop, List.filterMap_cons]
    cases hx : resolve_meta_path env s (valToOptStr r) with
    | none => simpa [hx] using ih
    | some fn => by_cases hd : env.fisdir fn <;> simp [hx, hd, ih]

/-- C6: on a `references` front-matter field, a non-list value is wrapped in
a one-element list, every reference is resolved with `resolve_meta_path`, and
the stored builtin references list holds exactly the normalized resolved
paths of the references that resolved to a non-`None`, non-directory path, in
order — unresolved and directory references are dropped. -/
theorem C6_references (env : Env) (s : Settings) (v : Val) :
    dlookup (builtinOf (apply_frontmatter env s
        [("references", v)]).1.overrides) "references" =
      some (Val.list (((match v with | Val.list l => l | w => [w]).filterMap
        (fun ref => match resolve_meta_path env s (valToOptStr ref) with
          | some fn => if env.fisdir fn then Option.none else some (env.normpath fn)
          | Option.none => Option.none)).map Val.str)) := by
  have h1 : (apply_frontmatter env s [("references", v)]).1 = applyRefs env s v := rfl
  rw [h1]
  simp only [applyRefs]
  rw [builtinOf_dinsert_builtin, dlookup_dinsert_self, refsLoop_eq_filterMap]

/-- C7: on a non-`None` `destination` front-matter field, the directory part
is resolved with `resolve_meta_path`; on success the destination becomes the
resolved directory joined with the original basename; the builtin destination
is stored exactly when the resulting path does not exist or is not a
directory, and an existing directory — or a `None` value — changes nothing. -/
theorem C7_destination (env : Env) (s : Settings) (fn fn2 : String)
    (hfn2 : fn2 = (match resolve_meta_path env s (some (env.dirname fn)) with
      | some d => env.joinp d (env.basename fn)
      | Option.none => fn)) :
    ((env.fexists fn2 && env.fisdir fn2) = false →
      dlookup (builtinOf (apply_frontmatter env s
          [("destination", Val.str fn)]).1.overrides) "destination" =
        some (Val.str fn2)) ∧
    ((env.fexists fn2 && env.fisdir fn2) = true →
      (apply_frontmatter env s [("destination", Val.str fn)]).1 = s) ∧
    (apply_frontmatter env s [("destination", Val.null)]).1 = s := by
  have h1 : (apply_frontmatter env s [("destination", Val.str fn)]).1 =
      applyDest env s (Val.str fn) := rfl
  refine ⟨?_, ?_, rfl⟩
  · intro hc
    rw [h1]
    simp only [applyDest]
    rw [← hfn2]
    simp [hc, builtinOf_dinsert_builtin]
  · intro hc
    rw [h1]
    simp only [applyDest]
    rw [← hfn2]
    simp [hc]

/-- C7 witness: a destination whose directory part does not resolve and which
does not exist is stored unchanged. -/
theorem C7_destination_witness :
    dlookup (builtinOf (apply_frontmatter envT sT
        [("destination", Val.str "f")]).1.overrides) "destination" =
      some (Val.str "f") :=
  (C7_destination envT sT "f" "f" rfl).1 rfl

/-- C8: no sequence of mutating operations (`set`, `add_meta`,
`apply_frontmatter`) ever changes the wrapped host settings store or the file
name — all modification is confined to the override dictionary. -/
theorem C8_no_store_writes (env : Env) (s : Settings) (ops : List Op) :
    (runOps env s ops).sub = s.sub ∧ (runOps env s ops).file_name = s.file_name := by
  induction ops generalizing s with
  | nil => exact ⟨rfl, rfl⟩
  | cons op rest ih =>
    simp only [runOps]
    have hr := ih (runOp env s op)
    have ho : (runOp env s op).sub = s.sub ∧ (runOp env s op).file_name = s.file_name := by
      cases op with
      | setOp k v => exact ⟨rfl, rfl⟩
      | addMetaOp m => exact ⟨rfl, rfl⟩
      | applyFMOp fm => exact apply_frontmatter_frame env s fm
    exact ⟨hr.1.trans ho.1, hr.2.trans ho.2⟩

/-- C9: `apply_frontmatter` mutates the caller's front-matter dict: when it
contained `basepath`, afterwards the `basepath` key is gone and every other
key is untouched. -/
theorem C9_frontmatter_basepath_deleted (env : Env) (s : Settings) (fm : PyDict)
    (h : dmem fm "basepath" = true) :
    dlookup (apply_frontmatter env s fm).2 "basepath" = Option.none ∧
    ∀ k, k ≠ "basepath" → dlookup (apply_frontmatter env s fm).2 k = dlookup fm k := by
  have h2 : (apply_frontmatter env s fm).2 = derase fm "basepath" := rfl
  rw [h2]
  exact ⟨dlookup_derase_self fm "basepath",
    fun k hk => dlookup_derase_ne fm "basepath" k hk⟩

/-- C9 witness: a concrete front matter `{basepath: None, x: None}` loses its
`basepath` entry but keeps `x`. -/
theorem C9_frontmatter_basepath_deleted_witness :
    dlookup (apply_frontmatter envT sT
        [("basepath", Val.null), ("x", Val.null)]).2 "basepath" = Option.none ∧
    dlookup (apply_frontmatter envT sT
        [("basepath", Val.null), ("x", Val.null)]).2 "x" =
      dlookup [("basepath", Val.null), ("x", Val.null)] "x" :=
  ⟨(C9_frontmatter_basepath_deleted envT sT
      [("basepath", Val.null), ("x", Val.null)] rfl).1,
   (C9_frontmatter_basepath_deleted envT sT
      [("basepath", Val.null), ("x", Val.null)] rfl).2 "x" (by decide)⟩

/-- C10: `add_meta` gives precedence to previously stored meta data — a key
already bound keeps its old value, while keys present only in the argument
are added with the argument's value.  (Keys of a Python dict are distinct,
whence the `Nodup` hypotheses.) -/
theorem C10_add_meta_precedence (s : Settings) (meta : PyDict) (k : String)
    (h1 : ((metaOf s.overrides).map Prod.fst).Nodup)
    (h2 : (meta.map Prod.fst).Nodup) :
    (∀ v, dlookup (metaOf s.overrides) k = some v →
      dlookup (metaOf (add_meta s meta).overrides) k = some v) ∧
    (dlookup (metaOf s.overrides) k = Option.none →
      dlookup (metaOf (add_meta s meta).overrides) k = dlookup meta k) := by
  have hm : metaOf (add_meta s meta).overrides =
      dictFromPairs (meta ++ metaOf s.overrides) :=
    metaOf_dinsert_meta s.overrides (dictFromPairs (meta ++ metaOf s.overrides))
  have key : dlookup (dictFromPairs (meta ++ metaOf s.overrides)) k =
      (dlookup (metaOf s.overrides) k <|> dlookup meta k) := by
    rw [dlookup_dictFromPairs, List.reverse_append, dlookup_append,
        dlookup_reverse_of_nodup _ _ h1, dlookup_reverse_of_nodup _ _ h2]
  constructor
  · intro v hv
    rw [hm, key, hv]
    rfl
  · intro hv
    rw [hm, key, hv]
    rfl

/-- C10 witness: with `a ↦ old` stored, `add_meta {a: new}` keeps `old`. -/
theorem C10_add_meta_precedence_witness :
    dlookup (metaOf (add_meta sM [("a", Val.str "new")]).overrides) "a" =
      some (Val.str "old") :=
  (C10_add_meta_precedence sM [("a", Val.str "new")] "a"
    (by simp [sM, metaOf, dlookup]) (by simp)).1 (Val.str "old") rfl

end MarkdownSettings
